import Mathlib

/-!
Shallow embedding of the repodata acquisition and caching layer of
rpmdeplint (src/rpmdeplint/repodata.py).

The filesystem is modelled as an association list from paths (lists of
name components) to nodes: regular files carry content bytes and a
modification time, directories carry a flag recording whether they can
be listed.  Stateful Python code becomes explicit state passing; network
downloads are inputs (streamed chunk lists, or a failure); the external
RPM header parser (rpm.hdrFromFdno) is an oracle parameter.
-/

set_option autoImplicit false

namespace Rpmdeplint

/-- A filesystem path, as a list of name components. -/
abbrev FPath := List String

/-- A filesystem node. -/
inductive FSNode where
  | file (content : List Nat) (mtime : Int)
  | dir (readable : Bool)
  deriving DecidableEq, Repr, Inhabited

/-- A filesystem: a finite map from paths to nodes, as an association list.
The first binding for a path wins on lookup. -/
abbrev FS := List (FPath × FSNode)

def FS.lookup : FS → FPath → Option FSNode
  | [], _ => none
  | e :: rest, p => if e.1 = p then some e.2 else FS.lookup rest p

/-- os.unlink: remove every binding for path p. -/
def FS.unlink : FS → FPath → FS
  | [], _ => []
  | e :: rest, p => if e.1 = p then FS.unlink rest p else e :: FS.unlink rest p

/-- Create or replace the node bound at path p. -/
def FS.set (fs : FS) (p : FPath) (n : FSNode) : FS := (p, n) :: fs.unlink p

/-- os.utime: refresh the modification time of the file at p. -/
def FS.setMtime (fs : FS) (p : FPath) (t : Int) : FS :=
  match fs.lookup p with
  | some (.file c _) => fs.set p (.file c t)
  | _ => fs

/-- q lies at or below p in the directory tree. -/
def underPath (p q : FPath) : Bool := decide (q.take p.length = p)

/-- shutil.rmtree: remove the entry at p together with everything below it. -/
def FS.rmtree : FS → FPath → FS
  | [], _ => []
  | e :: rest, p => if underPath p e.1 then FS.rmtree rest p else e :: FS.rmtree rest p

/-- Path.iterdir, on keys: the bound paths lying one level below p. -/
def FS.childKeys (fs : FS) (p : FPath) : List FPath :=
  (fs.map (fun e => e.1)).filter fun q => decide (q.length = p.length + 1 ∧ q.take p.length = p)

/-- Helper for mkdir(parents=True, exist_ok=True): walk the components left
to right, creating each missing directory. -/
def mkdirpAux (fs : FS) (done : FPath) : List String → FS
  | [] => fs
  | c :: rest =>
      let d := done ++ [c]
      let fs1 := match fs.lookup d with
                 | none => fs.set d (.dir true)
                 | some _ => fs
      mkdirpAux fs1 d rest

/-- Path.mkdir(parents=True, exist_ok=True). -/
def FS.mkdirp (fs : FS) (p : FPath) : FS := mkdirpAux fs [] p

/-- os.rename: atomic replacement of dst by the node at src. -/
def FS.rename (fs : FS) (src dst : FPath) : FS :=
  match fs.lookup src with
  | some n => (fs.unlink src).set dst n
  | none => fs

/-- os.path.basename: the part of a location after the last slash. -/
def basename (url : String) : String := ((url.splitOn "/").getLast?).getD ""

/-- OS-level errors surfaced by the model. -/
inductive OSErr where
  | permissionError
  | isADirectoryError
  deriving DecidableEq, Repr

namespace Cache

/-- Cache.entry_path: base_path / checksum[:1] / checksum[1:]. -/
def entry_path (base : FPath) (checksum : String) : FPath :=
  base ++ [checksum.take 1, checksum.drop 1]

/-- The expiry window: the RPMDEPLINT_EXPIRY_SECONDS environment variable
when set, else the default 604800 seconds (7 days). -/
def expirySeconds (env : Option Int) : Int := env.getD 604800

/-- Inner loop of Cache.clean over the entries of one subdirectory:
skip non-files, unlink files whose mtime is strictly below the cutoff. -/
def cleanInner (cutoff : Int) : List FPath → FS → FS
  | [], fs => fs
  | q :: rest, fs =>
      match fs.lookup q with
      | some (.file _ m) =>
          if m < cutoff then cleanInner cutoff rest (fs.unlink q)
          else cleanInner cutoff rest fs
      | _ => cleanInner cutoff rest fs

/-- Outer loop of Cache.clean over the children of the base path: skip
non-directories; listing an unreadable directory raises PermissionError. -/
def cleanOuter (cutoff : Int) : List FPath → FS → Except OSErr FS
  | [], fs => .ok fs
  | sub :: rest, fs =>
      match fs.lookup sub with
      | some (.dir true) => cleanOuter cutoff rest (cleanInner cutoff (fs.childKeys sub) fs)
      | some (.dir false) => .error .permissionError
      | _ => cleanOuter cutoff rest fs

/-- Cache.clean.  The base path stands for Cache.base_path(); now is
time.time(); env is the optional expiry override from the environment. -/
def clean (fs : FS) (base : FPath) (now : Int) (env : Option Int) : Except OSErr FS :=
  let cutoff := now - expirySeconds env
  match fs.lookup base with
  | some (.dir true) => cleanOuter cutoff (fs.childKeys base) fs
  | some (.dir false) => .error OSErr.permissionError
  | _ => .ok fs

/-- The file at q is a regular file whose mtime lies strictly below the
cutoff (the deletion test of the clean inner loop). -/
def expiredFile (cutoff : Int) (fs : FS) (q : FPath) : Bool :=
  match FS.lookup fs q with
  | some (.file _ m) => decide (m < cutoff)
  | _ => false

/-- The entries that a clean sweep is specified to delete: regular files
two levels below the base, inside a listable subdirectory, with mtime
strictly below the cutoff. -/
def expiredCacheEntry (fs : FS) (base : FPath) (cutoff : Int) (q : FPath) : Prop :=
  (∃ s e2, q = base ++ [s, e2]) ∧
  FS.lookup fs q.dropLast = some (.dir true) ∧
  ∃ c m, FS.lookup fs q = some (.file c m) ∧ m < cutoff

/-- A small cache tree used to exercise the eviction sweep: a readable
base, one readable subdirectory, one expired file and one fresh file. -/
def cleanDemoFS : FS :=
  [(["c"], FSNode.dir true), (["c", "a"], FSNode.dir true),
   (["c", "a", "old"], FSNode.file [1] 0),
   (["c", "a", "new"], FSNode.file [2] 999999)]

/-- A cache tree whose single subdirectory is not readable. -/
def cleanUnreadableFS : FS :=
  [(["c"], FSNode.dir true), (["c", "a"], FSNode.dir false),
   (["c", "a", "x"], FSNode.file [] 0)]

/-- Outcome of the HTTP GET issued on a cache miss: the streamed chunks on
success, or a failure after some chunks were already written.  Transport
failures (requests exceptions and OSError) are distinguished from any
other exception because the code wraps only the former. -/
inductive NetResult where
  | ok (chunks : List (List Nat))
  | transportErr (written : List (List Nat))
  | otherErr (written : List (List Nat))
  deriving DecidableEq, Repr

inductive DlError where
  | repoDownloadError (msg : String)
  | otherError
  deriving DecidableEq, Repr

/-- Result of Cache.download_repodata_file: the returned handle content or
the raised error, the final filesystem, the sequence of filesystem states
visible to concurrent readers after each mutating step, and the number of
network GETs issued. -/
structure DlOutcome where
  result : Except DlError (List Nat)
  fs : FS
  trace : List FS
  downloads : Nat
  deriving Repr

/-- The filesystem states seen while the streamed chunks are written one by
one to the temp file. -/
def writeStates (fs : FS) (p : FPath) (now : Int) (chunks : List (List Nat)) : List FS :=
  (List.range chunks.length).map fun i => fs.set p (.file ((chunks.take (i + 1)).flatten) now)

/-- The miss path of Cache.download_repodata_file: make the parent
directories, create a fresh temp file (mkstemp, name tmp) in the parent of
the entry, stream the download into it, then either atomically rename it
onto the entry (success) or unlink it and raise (failure).  Transport
failures are wrapped as RepoDownloadError naming the basename of the URL. -/
def missDownload (fs : FS) (entry : FPath) (url tmp : String) (now : Int)
    (net : NetResult) : DlOutcome :=
  let parent := entry.dropLast
  let tpath := parent ++ [tmp]
  let fs1 := fs.mkdirp parent
  let fs2 := fs1.set tpath (.file [] now)
  match net with
  | .ok chunks =>
      let fsW := fs2.set tpath (.file chunks.flatten now)
      let fsF := fsW.rename tpath entry
      { result := .ok chunks.flatten, fs := fsF,
        trace := [fs, fs1, fs2] ++ writeStates fs2 tpath now chunks ++ [fsF],
        downloads := 1 }
  | .transportErr written =>
      let fsW := fs2.set tpath (.file written.flatten now)
      let fsF := fsW.unlink tpath
      { result := .error (.repoDownloadError
          ("Failed to download repodata file " ++ basename url)),
        fs := fsF,
        trace := [fs, fs1, fs2] ++ writeStates fs2 tpath now written ++ [fsF],
        downloads := 1 }
  | .otherErr written =>
      let fsW := fs2.set tpath (.file written.flatten now)
      let fsF := fsW.unlink tpath
      { result := .error .otherError, fs := fsF,
        trace := [fs, fs1, fs2] ++ writeStates fs2 tpath now written ++ [fsF],
        downloads := 1 }

/-- Cache.download_repodata_file.  On hit (entry is a regular file): bump
its mtime and return its content with no download.  On EISDIR (legacy
layout): rmtree the directory and fall through to the miss path.  On
ENOENT: the miss path. -/
def download_repodata_file (fs : FS) (base : FPath) (checksum url tmp : String)
    (now : Int) (net : NetResult) : DlOutcome :=
  let entry := entry_path base checksum
  match fs.lookup entry with
  | some (.file c _) =>
      let fsB := fs.setMtime entry now
      { result := .ok c, fs := fsB, trace := [fs, fsB], downloads := 0 }
  | some (.dir _) =>
      let out := missDownload (fs.rmtree entry) entry url tmp now net
      { out with trace := fs :: out.trace }
  | none => missDownload fs entry url tmp now net

end Cache

/-- A Yum repository descriptor, as built by Repo.__init__. -/
structure Repo where
  name : String
  baseurl : Option String
  metalink : Option String
  skip_if_unavailable : Bool
  deriving DecidableEq, Repr

/-- Python truthiness of an optional string: None and the empty string are
falsy. -/
def truthy : Option String → Bool
  | none => false
  | some s => decide (s ≠ "")

/-- Repo.__init__: raises RuntimeError when neither baseurl nor metalink is
truthy, else records all the arguments. -/
def Repo.init (repo_name : String) (baseurl metalink : Option String)
    (skip_if_unavailable : Bool) : Except String Repo :=
  if truthy baseurl = false ∧ truthy metalink = false then
    .error "Must specify either baseurl or metalink for repo"
  else
    .ok { name := repo_name, baseurl := baseurl, metalink := metalink,
          skip_if_unavailable := skip_if_unavailable }

/-- Repo._is_header_complete: opening a missing file raises
FileNotFoundError which is caught and becomes False; a file is fed to the
rpm header parser (the oracle), whose failure (rpm.error) is caught and
becomes False; opening a directory raises IsADirectoryError, which is not
caught. -/
def Repo.is_header_complete (fs : FS) (p : FPath) (oracle : List Nat → Bool) :
    Except OSErr Bool :=
  match fs.lookup p with
  | none => .ok false
  | some (.file c _) => .ok (oracle c)
  | some (.dir _) => .error .isADirectoryError

inductive PkgError where
  | packageDownloadError (msg : String)
  | osError (e : OSErr)
  deriving DecidableEq, Repr

/-- Bytes fetched by a byte-range request with ceiling c; the sentinel 0
means the whole file. -/
def fetchRange (c : Nat) (pkg : List Nat) : List Nat :=
  if c = 0 then pkg else pkg.take c

/-- The escalation loop of Repo.download_package_header over the remaining
byte-range ceilings.  errs i is the librepo target error of attempt i
(none on success, in which case the fetched prefix is written to dest);
a truthy error other than "Already downloaded" raises
PackageDownloadError; after each attempt the header completeness of the
file at dest is re-checked and the loop stops on completeness.  When the
ceilings are exhausted the last local path is returned regardless. -/
def Repo.hdrLoop (oracle : List Nat → Bool) (pkg : List Nat) (dest : FPath)
    (now : Int) (errs : Nat → Option String) (rname loc : String) :
    List Nat → Nat → FS → List Nat × Except PkgError (FPath × FS)
  | [], _, fs => ([], .ok (dest, fs))
  | c :: rest, i, fs =>
      match errs i with
      | some e =>
          if e ≠ "" ∧ e ≠ "Already downloaded" then
            ([c], .error (.packageDownloadError
              ("Failed to download " ++ loc ++ " from repo " ++ rname ++ ": " ++ e)))
          else
            match Repo.is_header_complete fs dest oracle with
            | .error os => ([c], .error (.osError os))
            | .ok true => ([c], .ok (dest, fs))
            | .ok false =>
                let r := Repo.hdrLoop oracle pkg dest now errs rname loc rest (i + 1) fs
                (c :: r.1, r.2)
      | none =>
          let fs1 := fs.set dest (.file (fetchRange c pkg) now)
          match Repo.is_header_complete fs1 dest oracle with
          | .error os => ([c], .error (.osError os))
          | .ok true => ([c], .ok (dest, fs1))
          | .ok false =>
              let r := Repo.hdrLoop oracle pkg dest now errs rname loc rest (i + 1) fs1
              (c :: r.1, r.2)

/-- Repo.download_package_header.  local_path is root/basename(location).
When the librepo handle exists and is local the path is returned directly
with no attempt; when a structurally complete header is already at
local_path it is returned with no attempt; else the escalation loop runs
over the fixed ceilings 100000, 1000000, 5000000, 0 (whole file).  The
first component of the result is the list of byte-range ceilings actually
attempted, in order. -/
def Repo.download_package_header (fs : FS) (rootPath : FPath)
    (hasHandle localFlag : Bool) (rname loc : String)
    (oracle : List Nat → Bool) (pkg : List Nat)
    (errs : Nat → Option String) (now : Int) :
    List Nat × Except PkgError (FPath × FS) :=
  let local_path := rootPath ++ [basename loc]
  if hasHandle && localFlag then ([], .ok (local_path, fs))
  else
    match Repo.is_header_complete fs local_path oracle with
    | .error os => ([], .error (.osError os))
    | .ok true => ([], .ok (local_path, fs))
    | .ok false =>
        Repo.hdrLoop oracle pkg local_path now errs rname loc
          [100000, 1000000, 5000000, 0] 0 fs

/-- configparser RawConfigParser.getboolean: the BOOLEAN_STATES table,
case-insensitive; anything else raises ValueError. -/
def getboolean (v : String) : Option Bool :=
  let t := v.toLower
  if t = "1" ∨ t = "yes" ∨ t = "true" ∨ t = "on" then some true
  else if t = "0" ∨ t = "no" ∨ t = "false" ∨ t = "off" then some false
  else none

/-- One INI section of the Yum configuration. -/
structure IniSection where
  name : String
  options : List (String × String)
  deriving DecidableEq, Repr

/-- config.get / has_option on one section. -/
def getOpt (opts : List (String × String)) (k : String) : Option String :=
  (opts.find? (fun e => e.1 == k)).map (fun e => e.2)

/-- substitute_yumvars: literal replacement of each $name by its value, in
order of appearance of the yumvars. -/
def substitute_yumvars (s : String) (yumvars : List (String × String)) : String :=
  yumvars.foldl (fun acc kv => acc.replace ("$" ++ kv.1) kv.2) s

inductive ConfigError where
  | valueError (msg : String)
  | boolParseError (sname : String)
  | repoInitError (sname : String)
  deriving DecidableEq, Repr

/-- Lift a Repo.__init__ result into the section-processing result. -/
def wrapInit (sname : String) (r : Except String Repo) :
    Except ConfigError (Option Repo) :=
  match r with
  | .ok repo => .ok (some repo)
  | .error _ => .error (.repoInitError sname)

/-- One iteration of the Repo.from_yum_config section loop: skip "main";
skip a section whose enabled option parses false; read the optional
skip_if_unavailable flag; then take baseurl, else metalink, else
mirrorlist (passed as metalink), applying variable substitution; if none
of the three is present, raise ValueError naming the section. -/
def processSection (yumvars : List (String × String)) (s : IniSection) :
    Except ConfigError (Option Repo) :=
  if s.name = "main" then .ok none
  else
    match (match getOpt s.options "enabled" with
           | none => Except.ok false
           | some v => match getboolean v with
                       | none => Except.error (ConfigError.boolParseError s.name)
                       | some b => Except.ok (!b)) with
    | .error e => .error e
    | .ok true => .ok none
    | .ok false =>
        match (match getOpt s.options "skip_if_unavailable" with
               | none => Except.ok false
               | some v => match getboolean v with
                           | none => Except.error (ConfigError.boolParseError s.name)
                           | some b => Except.ok b) with
        | .error e => .error e
        | .ok skip =>
            match getOpt s.options "baseurl" with
            | some b =>
                wrapInit s.name
                  (Repo.init s.name (some (substitute_yumvars b yumvars)) none skip)
            | none =>
                match getOpt s.options "metalink" with
                | some m =>
                    wrapInit s.name
                      (Repo.init s.name none (some (substitute_yumvars m yumvars)) skip)
                | none =>
                    match getOpt s.options "mirrorlist" with
                    | some ml =>
                        wrapInit s.name
                          (Repo.init s.name none (some (substitute_yumvars ml yumvars)) skip)
                    | none =>
                        .error (.valueError ("Yum config section " ++ s.name ++
                          " has no baseurl or metalink or mirrorlist"))

/-- Repo.from_yum_config over the parsed sections, collecting the yielded
Repos in order; the first raised error aborts the generator. -/
def from_yum_config (yumvars : List (String × String)) :
    List IniSection → Except ConfigError (List Repo)
  | [] => .ok []
  | s :: rest =>
      match processSection yumvars s with
      | .error e => .error e
      | .ok none => from_yum_config yumvars rest
      | .ok (some r) =>
          match from_yum_config yumvars rest with
          | .error e => .error e
          | .ok rs => .ok (r :: rs)

/-! Frame lemmas for the filesystem model. -/

theorem lookup_unlink (fs : FS) (p q : FPath) :
    FS.lookup (FS.unlink fs p) q = if q = p then none else FS.lookup fs q := by
  induction fs with
  | nil => simp [FS.unlink, FS.lookup]
  | cons e rest ih =>
    by_cases h1 : e.1 = p
    · by_cases h2 : q = p
      · subst h2; simp [FS.unlink, FS.lookup, h1, ih]
      · have h3 : e.1 ≠ q := by rw [h1]; intro hh; exact h2 hh.symm
        have h4 : ¬ p = q := fun hh => h2 hh.symm
        simp [FS.unlink, FS.lookup, h1, h2, h3, h4, ih]
    · by_cases h3 : e.1 = q
      · have h2 : ¬ q = p := by rw [← h3]; exact h1
        simp [FS.unlink, FS.lookup, h1, h2, h3, ih]
      · simp [FS.unlink, FS.lookup, h1, h3, ih]

theorem lookup_set_self (fs : FS) (p : FPath) (n : FSNode) :
    FS.lookup (FS.set fs p n) p = some n := by
  simp [FS.set, FS.lookup]

theorem lookup_set_ne (fs : FS) (p q : FPath) (n : FSNode) (h : q ≠ p) :
    FS.lookup (FS.set fs p n) q = FS.lookup fs q := by
  have h2 : ¬ p = q := fun hh => h hh.symm
  simp [FS.set, FS.lookup, h2, lookup_unlink, h]

theorem lookup_setMtime_ne (fs : FS) (p q : FPath) (t : Int) (h : q ≠ p) :
    FS.lookup (FS.setMtime fs p t) q = FS.lookup fs q := by
  unfold FS.setMtime
  cases hl : FS.lookup fs p with
  | none => rfl
  | some n =>
    cases n with
    | file c m => simp [lookup_set_ne _ _ _ _ h]
    | dir r => rfl

theorem lookup_setMtime_file (fs : FS) (p : FPath) (t : Int) (c : List Nat) (m : Int)
    (h : FS.lookup fs p = some (.file c m)) :
    FS.lookup (FS.setMtime fs p t) p = some (.file c t) := by
  simp [FS.setMtime, h, lookup_set_self]

theorem lookup_rmtree (fs : FS) (p q : FPath) :
    FS.lookup (FS.rmtree fs p) q =
      if underPath p q then none else FS.lookup fs q := by
  induction fs with
  | nil => simp [FS.rmtree, FS.lookup]
  | cons e rest ih =>
    by_cases h1 : underPath p e.1
    · by_cases h2 : e.1 = q
      · subst h2; simp [FS.rmtree, FS.lookup, h1, ih]
      · have h3 : ¬ e.1 = q := h2
        simp [FS.rmtree, FS.lookup, h1, h3, ih]
    · by_cases h2 : e.1 = q
      · have h3 : ¬ underPath p q = true := by rw [← h2]; exact h1
        simp [FS.rmtree, FS.lookup, h1, h2, h3]
      · simp [FS.rmtree, FS.lookup, h1, h2, ih]

theorem underPath_self (p : FPath) : underPath p p = true := by
  simp [underPath]

theorem not_underPath_of_shorter (p q : FPath) (h : q.length < p.length) :
    underPath p q = false := by
  simp only [underPath, decide_eq_false_iff_not]
  intro hh
  have := congrArg List.length hh
  simp [List.length_take] at this
  omega

/-- mkdirpAux only ever binds paths of length at most the length of done
plus the number of remaining components; longer paths are untouched. -/
theorem lookup_mkdirpAux (q : FPath) :
    ∀ (cs : List String) (fs : FS) (done : FPath),
      done.length + cs.length < q.length →
      FS.lookup (mkdirpAux fs done cs) q = FS.lookup fs q := by
  intro cs
  induction cs with
  | nil => intro fs done _; rfl
  | cons c rest ih =>
    intro fs done hlen
    have hd : (done ++ [c]).length + rest.length < q.length := by
      simp at hlen ⊢; omega
    have hne : q ≠ done ++ [c] := by
      intro hh
      have := congrArg List.length hh
      simp at this hlen
      omega
    unfold mkdirpAux
    rw [ih _ _ hd]
    cases hl : FS.lookup fs (done ++ [c]) with
    | none => simp only [hl]; exact lookup_set_ne _ _ _ _ hne
    | some n => simp only [hl]

theorem lookup_mkdirp (fs : FS) (p q : FPath) (h : p.length < q.length) :
    FS.lookup (FS.mkdirp fs p) q = FS.lookup fs q := by
  unfold FS.mkdirp
  exact lookup_mkdirpAux q p fs [] (by simpa using h)

theorem lookup_rename_dst (fs : FS) (src dst : FPath) (n : FSNode)
    (h : FS.lookup fs src = some n) :
    FS.lookup (FS.rename fs src dst) dst = some n := by
  simp [FS.rename, h, lookup_set_self]

theorem lookup_rename_src (fs : FS) (src dst : FPath) (n : FSNode)
    (h : FS.lookup fs src = some n) (hne : src ≠ dst) :
    FS.lookup (FS.rename fs src dst) src = none := by
  simp [FS.rename, h, lookup_set_ne _ _ _ _ hne, lookup_unlink]

theorem lookup_rename_other (fs : FS) (src dst q : FPath)
    (h1 : q ≠ src) (h2 : q ≠ dst) :
    FS.lookup (FS.rename fs src dst) q = FS.lookup fs q := by
  unfold FS.rename
  cases hl : FS.lookup fs src with
  | none => rfl
  | some n => simp [lookup_set_ne _ _ _ _ h2, lookup_unlink, h1]

/-- A path has a binding exactly when it occurs among the keys. -/
theorem lookup_isSome_iff_mem_keys (fs : FS) (q : FPath) :
    (∃ n, FS.lookup fs q = some n) ↔ q ∈ fs.map (fun e => e.1) := by
  induction fs with
  | nil => simp [FS.lookup]
  | cons e rest ih =>
    by_cases h : e.1 = q
    · simp [FS.lookup, h]
    · have h2 : ¬ q = e.1 := fun hh => h hh.symm
      simp [FS.lookup, h, h2, ih]

theorem mem_childKeys_iff (fs : FS) (p q : FPath) :
    q ∈ FS.childKeys fs p ↔
      (∃ n, FS.lookup fs q = some n) ∧ q.length = p.length + 1 ∧
        q.take p.length = p := by
  simp [FS.childKeys, List.mem_filter, lookup_isSome_iff_mem_keys, and_assoc]

/-! Facts about cache entry paths. -/

theorem entry_path_dropLast (base : FPath) (cs : String) :
    (Cache.entry_path base cs).dropLast = base ++ [cs.take 1] := by
  show (base ++ [cs.take 1, cs.drop 1]).dropLast = base ++ [cs.take 1]
  rw [show base ++ [cs.take 1, cs.drop 1] = (base ++ [cs.take 1]) ++ [cs.drop 1] by simp]
  exact List.dropLast_concat

theorem entry_path_length (base : FPath) (cs : String) :
    (Cache.entry_path base cs).length = base.length + 2 := by
  simp [Cache.entry_path]

theorem entry_path_ne_nil (base : FPath) (cs : String) :
    Cache.entry_path base cs ≠ [] := by
  simp [Cache.entry_path]

theorem tpath_ne_entry (base : FPath) (cs tmp : String) (h : tmp ≠ cs.drop 1) :
    (Cache.entry_path base cs).dropLast ++ [tmp] ≠ Cache.entry_path base cs := by
  rw [entry_path_dropLast]
  show base ++ [cs.take 1] ++ [tmp] ≠ base ++ [cs.take 1, cs.drop 1]
  intro hh
  rw [List.append_assoc] at hh
  have h2 := List.append_cancel_left hh
  simp at h2
  exact h h2

/-! Dispatch lemmas for Cache.download_repodata_file. -/

theorem dl_hit (fs : FS) (base : FPath) (cs url tmp : String) (now : Int)
    (net : Cache.NetResult) (c : List Nat) (m : Int)
    (h : FS.lookup fs (Cache.entry_path base cs) = some (.file c m)) :
    Cache.download_repodata_file fs base cs url tmp now net =
      { result := .ok c, fs := FS.setMtime fs (Cache.entry_path base cs) now,
        trace := [fs, FS.setMtime fs (Cache.entry_path base cs) now],
        downloads := 0 } := by
  unfold Cache.download_repodata_file
  simp only [h]

theorem dl_miss (fs : FS) (base : FPath) (cs url tmp : String) (now : Int)
    (net : Cache.NetResult)
    (h : FS.lookup fs (Cache.entry_path base cs) = none) :
    Cache.download_repodata_file fs base cs url tmp now net =
      Cache.missDownload fs (Cache.entry_path base cs) url tmp now net := by
  unfold Cache.download_repodata_file
  simp only [h]

theorem dl_dir (fs : FS) (base : FPath) (cs url tmp : String) (now : Int)
    (net : Cache.NetResult) (r : Bool)
    (h : FS.lookup fs (Cache.entry_path base cs) = some (.dir r)) :
    Cache.download_repodata_file fs base cs url tmp now net =
      { Cache.missDownload (FS.rmtree fs (Cache.entry_path base cs))
          (Cache.entry_path base cs) url tmp now net with
        trace := fs :: (Cache.missDownload (FS.rmtree fs (Cache.entry_path base cs))
          (Cache.entry_path base cs) url tmp now net).trace } := by
  unfold Cache.download_repodata_file
  simp only [h]

/-! Result lemmas for the miss path. -/

theorem missDownload_ok (fs : FS) (entry : FPath) (url tmp : String) (now : Int)
    (chunks : List (List Nat))
    (hne : entry.dropLast ++ [tmp] ≠ entry) :
    (Cache.missDownload fs entry url tmp now (.ok chunks)).result = .ok chunks.flatten ∧
    FS.lookup (Cache.missDownload fs entry url tmp now (.ok chunks)).fs entry
      = some (.file chunks.flatten now) ∧
    FS.lookup (Cache.missDownload fs entry url tmp now (.ok chunks)).fs
      (entry.dropLast ++ [tmp]) = none ∧
    (Cache.missDownload fs entry url tmp now (.ok chunks)).downloads = 1 := by
  have hw : FS.lookup
      (FS.set (FS.set (FS.mkdirp fs entry.dropLast) (entry.dropLast ++ [tmp]) (.file [] now))
        (entry.dropLast ++ [tmp]) (.file chunks.flatten now)) (entry.dropLast ++ [tmp])
      = some (.file chunks.flatten now) := lookup_set_self ..
  refine ⟨rfl, ?_, ?_, rfl⟩
  · exact lookup_rename_dst _ _ _ _ hw
  · exact lookup_rename_src _ _ _ _ hw hne

theorem missDownload_err_lookup (fs : FS) (entry : FPath) (url tmp : String) (now : Int)
    (w : List (List Nat)) (net : Cache.NetResult)
    (hnet : net = .transportErr w ∨ net = .otherErr w)
    (hne : entry.dropLast ++ [tmp] ≠ entry)
    (hn0 : entry ≠ []) :
    FS.lookup (Cache.missDownload fs entry url tmp now net).fs
      (entry.dropLast ++ [tmp]) = none ∧
    FS.lookup (Cache.missDownload fs entry url tmp now net).fs entry
      = FS.lookup fs entry ∧
    (Cache.missDownload fs entry url tmp now net).downloads = 1 := by
  have hlen : entry.dropLast.length < entry.length := by
    have := List.length_dropLast entry
    have h1 : 0 < entry.length := List.length_pos.mpr hn0
    omega
  have hesym : entry ≠ entry.dropLast ++ [tmp] := fun hh => hne hh.symm
  have hentry :
      FS.lookup (FS.unlink
        (FS.set (FS.set (FS.mkdirp fs entry.dropLast) (entry.dropLast ++ [tmp]) (.file [] now))
          (entry.dropLast ++ [tmp]) (.file w.flatten now)) (entry.dropLast ++ [tmp])) entry
      = FS.lookup fs entry := by
    rw [lookup_unlink]
    rw [if_neg hesym]
    rw [lookup_set_ne _ _ _ _ hesym, lookup_set_ne _ _ _ _ hesym]
    exact lookup_mkdirp _ _ _ hlen
  have htmp :
      FS.lookup (FS.unlink
        (FS.set (FS.set (FS.mkdirp fs entry.dropLast) (entry.dropLast ++ [tmp]) (.file [] now))
          (entry.dropLast ++ [tmp]) (.file w.flatten now)) (entry.dropLast ++ [tmp]))
        (entry.dropLast ++ [tmp]) = none := by
    rw [lookup_unlink, if_pos rfl]
  rcases hnet with h | h <;> subst h <;> exact ⟨htmp, hentry, rfl⟩

theorem missDownload_transport_result (fs : FS) (entry : FPath) (url tmp : String)
    (now : Int) (w : List (List Nat)) :
    (Cache.missDownload fs entry url tmp now (.transportErr w)).result =
      .error (.repoDownloadError ("Failed to download repodata file " ++ basename url)) := rfl

theorem missDownload_other_result (fs : FS) (entry : FPath) (url tmp : String)
    (now : Int) (w : List (List Nat)) :
    (Cache.missDownload fs entry url tmp now (.otherErr w)).result =
      .error .otherError := rfl

/-- Claim C9: when the cache base directory does not exist, Cache.clean
returns normally without error and leaves the filesystem literally
unchanged: nothing is created, deleted or modified. -/
theorem clean_missing_base_noop (fs : FS) (base : FPath) (now : Int) (env : Option Int)
    (h : FS.lookup fs base = none) :
    Cache.clean fs base now env = .ok fs := by
  unfold Cache.clean
  simp only [h]

theorem clean_missing_base_noop_witness :
    Cache.clean [(["other"], FSNode.dir true)] ["home", "cache"] 1000 none
      = .ok [(["other"], FSNode.dir true)] :=
  clean_missing_base_noop [(["other"], FSNode.dir true)] ["home", "cache"] 1000 none rfl

/-- Claim C5: when the librepo handle exists and reports a local
filesystem root, Repo.download_package_header returns the joined local
path root/basename(location) directly, with no byte-range attempt and the
filesystem untouched. -/
theorem local_repo_short_circuit (fs : FS) (rootPath : FPath) (rname loc : String)
    (oracle : List Nat → Bool) (pkg : List Nat) (errs : Nat → Option String)
    (now : Int) :
    Repo.download_package_header fs rootPath true true rname loc oracle pkg errs now
      = ([], .ok (rootPath ++ [basename loc], fs)) := by
  unfold Repo.download_package_header
  simp

/-- In every filesystem state visible during a miss-path download, the
final entry path is either absent or bound to the fully written content;
a partial file is only ever visible at the temp path. -/
theorem missDownload_trace (fs : FS) (entry : FPath) (url tmp : String) (now : Int)
    (net : Cache.NetResult)
    (hmiss : FS.lookup fs entry = none)
    (hne : entry.dropLast ++ [tmp] ≠ entry)
    (hn0 : entry ≠ []) :
    ∀ st ∈ (Cache.missDownload fs entry url tmp now net).trace,
      ∀ cc mm, FS.lookup st entry = some (.file cc mm) →
        ∃ chunks, net = .ok chunks ∧ cc = chunks.flatten := by
  have hlen : entry.dropLast.length < entry.length := by
    have := List.length_dropLast entry
    have h1 : 0 < entry.length := List.length_pos.mpr hn0
    omega
  have hesym : entry ≠ entry.dropLast ++ [tmp] := fun hh => hne hh.symm
  have h1 : FS.lookup (FS.mkdirp fs entry.dropLast) entry = none := by
    rw [lookup_mkdirp _ _ _ hlen]; exact hmiss
  have h2 : ∀ n : FSNode,
      FS.lookup (FS.set (FS.mkdirp fs entry.dropLast) (entry.dropLast ++ [tmp]) n) entry
        = none := by
    intro n; rw [lookup_set_ne _ _ _ _ hesym]; exact h1
  have h3 : ∀ n n2 : FSNode,
      FS.lookup (FS.set
        (FS.set (FS.mkdirp fs entry.dropLast) (entry.dropLast ++ [tmp]) n)
        (entry.dropLast ++ [tmp]) n2) entry = none := by
    intro n n2; rw [lookup_set_ne _ _ _ _ hesym]; exact h2 n
  cases net with
  | ok chunks =>
    intro st hst cc mm hl
    simp only [Cache.missDownload, Cache.writeStates, List.mem_append, List.mem_cons,
      List.mem_map, List.mem_range, List.mem_singleton, List.not_mem_nil, or_false] at hst
    rcases hst with ((h | h | h) | ⟨i, hi, h⟩) | h
    · subst h; rw [hmiss] at hl; cases hl
    · subst h; rw [h1] at hl; cases hl
    · subst h; rw [h2 _] at hl; cases hl
    · subst h; rw [h3 _ _] at hl; cases hl
    · subst h
      have hw : FS.lookup
          (FS.set (FS.set (FS.mkdirp fs entry.dropLast) (entry.dropLast ++ [tmp])
              (.file [] now)) (entry.dropLast ++ [tmp]) (.file chunks.flatten now))
          (entry.dropLast ++ [tmp]) = some (.file chunks.flatten now) := lookup_set_self ..
      rw [lookup_rename_dst _ _ _ _ hw] at hl
      injection hl with h4
      injection h4 with ha hb
      exact ⟨chunks, rfl, ha.symm⟩
  | transportErr w =>
    intro st hst cc mm hl
    simp only [Cache.missDownload, Cache.writeStates, List.mem_append, List.mem_cons,
      List.mem_map, List.mem_range, List.mem_singleton, List.not_mem_nil, or_false] at hst
    rcases hst with ((h | h | h) | ⟨i, hi, h⟩) | h
    · subst h; rw [hmiss] at hl; cases hl
    · subst h; rw [h1] at hl; cases hl
    · subst h; rw [h2 _] at hl; cases hl
    · subst h; rw [h3 _ _] at hl; cases hl
    · subst h
      rw [lookup_unlink, if_neg hesym, h3 _ _] at hl
      cases hl
  | otherErr w =>
    intro st hst cc mm hl
    simp only [Cache.missDownload, Cache.writeStates, List.mem_append, List.mem_cons,
      List.mem_map, List.mem_range, List.mem_singleton, List.not_mem_nil, or_false] at hst
    rcases hst with ((h | h | h) | ⟨i, hi, h⟩) | h
    · subst h; rw [hmiss] at hl; cases hl
    · subst h; rw [h1] at hl; cases hl
    · subst h; rw [h2 _] at hl; cases hl
    · subst h; rw [h3 _ _] at hl; cases hl
    · subst h
      rw [lookup_unlink, if_neg hesym, h3 _ _] at hl
      cases hl

/-- Claim C1: on a cache miss, any download failure removes the temp file
created in the entry parent directory and propagates the failure, with
transport failures wrapped as RepoDownloadError naming the basename of the
URL; the entry path is never bound to a partially written file in any
intermediate state, and only the final atomic rename makes the full
content visible at the entry path. -/
theorem cache_miss_failure_cleanup (fs : FS) (base : FPath) (cs url tmp : String)
    (now : Int) (net : Cache.NetResult)
    (hmiss : FS.lookup fs (Cache.entry_path base cs) = none)
    (htmp : tmp ≠ cs.drop 1) :
    (∀ w, net = .transportErr w →
      (Cache.download_repodata_file fs base cs url tmp now net).result =
        .error (.repoDownloadError ("Failed to download repodata file " ++ basename url)) ∧
      FS.lookup (Cache.download_repodata_file fs base cs url tmp now net).fs
        ((Cache.entry_path base cs).dropLast ++ [tmp]) = none ∧
      FS.lookup (Cache.download_repodata_file fs base cs url tmp now net).fs
        (Cache.entry_path base cs) = none) ∧
    (∀ w, net = .otherErr w →
      (Cache.download_repodata_file fs base cs url tmp now net).result = .error .otherError ∧
      FS.lookup (Cache.download_repodata_file fs base cs url tmp now net).fs
        ((Cache.entry_path base cs).dropLast ++ [tmp]) = none ∧
      FS.lookup (Cache.download_repodata_file fs base cs url tmp now net).fs
        (Cache.entry_path base cs) = none) ∧
    (∀ chunks, net = .ok chunks →
      (Cache.download_repodata_file fs base cs url tmp now net).result = .ok chunks.flatten ∧
      FS.lookup (Cache.download_repodata_file fs base cs url tmp now net).fs
        (Cache.entry_path base cs) = some (.file chunks.flatten now) ∧
      FS.lookup (Cache.download_repodata_file fs base cs url tmp now net).fs
        ((Cache.entry_path base cs).dropLast ++ [tmp]) = none) ∧
    (∀ st ∈ (Cache.download_repodata_file fs base cs url tmp now net).trace,
      ∀ cc mm, FS.lookup st (Cache.entry_path base cs) = some (.file cc mm) →
        ∃ chunks, net = .ok chunks ∧ cc = chunks.flatten) := by
  have hne := tpath_ne_entry base cs tmp htmp
  have hn0 := entry_path_ne_nil base cs
  have hdl := dl_miss fs base cs url tmp now net hmiss
  refine ⟨?_, ?_, ?_, ?_⟩
  · intro w hw
    subst hw
    rw [hdl]
    have he := missDownload_err_lookup fs (Cache.entry_path base cs) url tmp now w _
      (Or.inl rfl) hne hn0
    exact ⟨missDownload_transport_result .., he.1, by rw [he.2.1]; exact hmiss⟩
  · intro w hw
    subst hw
    rw [hdl]
    have he := missDownload_err_lookup fs (Cache.entry_path base cs) url tmp now w _
      (Or.inr rfl) hne hn0
    exact ⟨missDownload_other_result .., he.1, by rw [he.2.1]; exact hmiss⟩
  · intro chunks hw
    subst hw
    rw [hdl]
    have ho := missDownload_ok fs (Cache.entry_path base cs) url tmp now chunks hne
    exact ⟨ho.1, ho.2.1, ho.2.2.1⟩
  · rw [hdl]
    exact missDownload_trace fs (Cache.entry_path base cs) url tmp now net hmiss hne hn0

theorem cache_miss_failure_cleanup_witness :
    (Cache.download_repodata_file [] ["b"] "abc" "http://h/repodata/f.xml" "tmpX" 5
        (.transportErr [[1, 2]])).result =
      .error (.repoDownloadError
        ("Failed to download repodata file " ++ basename "http://h/repodata/f.xml")) ∧
    FS.lookup (Cache.download_repodata_file [] ["b"] "abc" "http://h/repodata/f.xml" "tmpX" 5
        (.transportErr [[1, 2]])).fs ((Cache.entry_path ["b"] "abc").dropLast ++ ["tmpX"])
      = none ∧
    FS.lookup (Cache.download_repodata_file [] ["b"] "abc" "http://h/repodata/f.xml" "tmpX" 5
        (.transportErr [[1, 2]])).fs (Cache.entry_path ["b"] "abc") = none :=
  (cache_miss_failure_cleanup [] ["b"] "abc" "http://h/repodata/f.xml" "tmpX" 5
      (.transportErr [[1, 2]]) rfl (by decide)).1 [[1, 2]] rfl

/-- Claim C4: for an entry already cached as a regular file, the retrieval
path returns the existing content, bumps the entry mtime to now, issues no
download, and changes nothing else; a second retrieval for the same
checksum again returns the identical content with no download, so the
entry content is never modified after creation. -/
theorem cache_hit_idempotent (fs : FS) (base : FPath) (cs url1 url2 tmp1 tmp2 : String)
    (now1 now2 : Int) (net1 net2 : Cache.NetResult) (c : List Nat) (m : Int)
    (hhit : FS.lookup fs (Cache.entry_path base cs) = some (.file c m)) :
    (Cache.download_repodata_file fs base cs url1 tmp1 now1 net1).result = .ok c ∧
    (Cache.download_repodata_file fs base cs url1 tmp1 now1 net1).downloads = 0 ∧
    FS.lookup (Cache.download_repodata_file fs base cs url1 tmp1 now1 net1).fs
      (Cache.entry_path base cs) = some (.file c now1) ∧
    (∀ q, q ≠ Cache.entry_path base cs →
      FS.lookup (Cache.download_repodata_file fs base cs url1 tmp1 now1 net1).fs q
        = FS.lookup fs q) ∧
    (Cache.download_repodata_file
        (Cache.download_repodata_file fs base cs url1 tmp1 now1 net1).fs
        base cs url2 tmp2 now2 net2).result = .ok c ∧
    (Cache.download_repodata_file
        (Cache.download_repodata_file fs base cs url1 tmp1 now1 net1).fs
        base cs url2 tmp2 now2 net2).downloads = 0 := by
  have h1 := dl_hit fs base cs url1 tmp1 now1 net1 c m hhit
  rw [h1]
  have hb : FS.lookup (FS.setMtime fs (Cache.entry_path base cs) now1)
      (Cache.entry_path base cs) = some (.file c now1) :=
    lookup_setMtime_file _ _ _ _ _ hhit
  have h2 := dl_hit (FS.setMtime fs (Cache.entry_path base cs) now1) base cs url2 tmp2
    now2 net2 c now1 hb
  rw [h2]
  exact ⟨rfl, rfl, hb, fun q hq => lookup_setMtime_ne _ _ _ _ hq, rfl, rfl⟩

theorem cache_hit_idempotent_witness :
    (Cache.download_repodata_file [(Cache.entry_path ["b"] "ab", FSNode.file [7, 9] 0)]
        ["b"] "ab" "u1" "t1" 100 (.transportErr [])).result = .ok [7, 9] ∧
    (Cache.download_repodata_file [(Cache.entry_path ["b"] "ab", FSNode.file [7, 9] 0)]
        ["b"] "ab" "u1" "t1" 100 (.transportErr [])).downloads = 0 ∧
    (Cache.download_repodata_file
        (Cache.download_repodata_file [(Cache.entry_path ["b"] "ab", FSNode.file [7, 9] 0)]
          ["b"] "ab" "u1" "t1" 100 (.transportErr [])).fs
        ["b"] "ab" "u2" "t2" 200 (.otherErr [])).result = .ok [7, 9] ∧
    (Cache.download_repodata_file
        (Cache.download_repodata_file [(Cache.entry_path ["b"] "ab", FSNode.file [7, 9] 0)]
          ["b"] "ab" "u1" "t1" 100 (.transportErr [])).fs
        ["b"] "ab" "u2" "t2" 200 (.otherErr [])).downloads = 0 := by
  have h := cache_hit_idempotent [(Cache.entry_path ["b"] "ab", FSNode.file [7, 9] 0)]
    ["b"] "ab" "u1" "u2" "t1" "t2" 100 200 (.transportErr []) (.otherErr []) [7, 9] 0 rfl
  exact ⟨h.1, h.2.1, h.2.2.2.2.1, h.2.2.2.2.2⟩

/-- Claim C8: a pre-existing directory at the entry path (legacy layout) is
detected on open-for-read, deleted, and the operation proceeds as a miss;
a successful download then stores a regular file at the entry path with
the downloaded content, and no error is reported. -/
theorem legacy_dir_repair (fs : FS) (base : FPath) (cs url tmp : String) (now : Int)
    (chunks : List (List Nat)) (r : Bool)
    (hdir : FS.lookup fs (Cache.entry_path base cs) = some (.dir r))
    (htmp : tmp ≠ cs.drop 1) :
    (Cache.download_repodata_file fs base cs url tmp now (.ok chunks)).result
      = .ok chunks.flatten ∧
    FS.lookup (Cache.download_repodata_file fs base cs url tmp now (.ok chunks)).fs
      (Cache.entry_path base cs) = some (.file chunks.flatten now) ∧
    (Cache.download_repodata_file fs base cs url tmp now (.ok chunks)).downloads = 1 := by
  have hne := tpath_ne_entry base cs tmp htmp
  rw [dl_dir fs base cs url tmp now _ r hdir]
  have ho := missDownload_ok (FS.rmtree fs (Cache.entry_path base cs))
    (Cache.entry_path base cs) url tmp now chunks hne
  exact ⟨ho.1, ho.2.1, ho.2.2.2⟩

theorem legacy_dir_repair_witness :
    (Cache.download_repodata_file [(Cache.entry_path ["b"] "ab", FSNode.dir true)]
        ["b"] "ab" "u" "t" 9 (.ok [[3], [4]])).result = .ok [3, 4] ∧
    FS.lookup (Cache.download_repodata_file [(Cache.entry_path ["b"] "ab", FSNode.dir true)]
        ["b"] "ab" "u" "t" 9 (.ok [[3], [4]])).fs (Cache.entry_path ["b"] "ab")
      = some (.file [3, 4] 9) ∧
    (Cache.download_repodata_file [(Cache.entry_path ["b"] "ab", FSNode.dir true)]
        ["b"] "ab" "u" "t" 9 (.ok [[3], [4]])).downloads = 1 :=
  legacy_dir_repair [(Cache.entry_path ["b"] "ab", FSNode.dir true)] ["b"] "ab" "u" "t" 9
    [[3], [4]] true rfl (by decide)

/-! Lemmas for the header-fetch escalation loop. -/

theorem is_header_complete_set_self (fs : FS) (dest : FPath) (oracle : List Nat → Bool)
    (c : List Nat) (t : Int) :
    Repo.is_header_complete (FS.set fs dest (.file c t)) dest oracle = .ok (oracle c) := by
  simp [Repo.is_header_complete, lookup_set_self]

theorem hdrLoop_cons_none (oracle : List Nat → Bool) (pkg : List Nat) (dest : FPath)
    (now : Int) (errs : Nat → Option String) (rname loc : String) (c : Nat)
    (rest : List Nat) (i : Nat) (fs : FS) (he : errs i = none) :
    Repo.hdrLoop oracle pkg dest now errs rname loc (c :: rest) i fs =
      if oracle (fetchRange c pkg) = true then
        ([c], .ok (dest, FS.set fs dest (.file (fetchRange c pkg) now)))
      else
        (c :: (Repo.hdrLoop oracle pkg dest now errs rname loc rest (i + 1)
            (FS.set fs dest (.file (fetchRange c pkg) now))).1,
         (Repo.hdrLoop oracle pkg dest now errs rname loc rest (i + 1)
            (FS.set fs dest (.file (fetchRange c pkg) now))).2) := by
  simp only [Repo.hdrLoop]
  rw [he]
  simp only [is_header_complete_set_self]
  cases ho : oracle (fetchRange c pkg) with
  | true => simp [ho]
  | false => simp only [ho]; rw [if_neg (by simp)]

theorem hdrLoop_head (oracle : List Nat → Bool) (pkg : List Nat) (dest : FPath)
    (now : Int) (errs : Nat → Option String) (rname loc : String) (c : Nat)
    (rest : List Nat) (i : Nat) (fs : FS) :
    (Repo.hdrLoop oracle pkg dest now errs rname loc (c :: rest) i fs).1.head?
      = some c := by
  simp only [Repo.hdrLoop]
  cases he : errs i with
  | none =>
    cases hic : Repo.is_header_complete
        (FS.set fs dest (.file (fetchRange c pkg) now)) dest oracle with
    | error os => simp [hic]
    | ok b => cases b <;> simp [hic]
  | some e =>
    by_cases hc : e ≠ "" ∧ e ≠ "Already downloaded"
    · simp [hc]
    · cases hic : Repo.is_header_complete fs dest oracle with
      | error os => simp [hc, hic]
      | ok b => cases b <;> simp [hc, hic]

/-- With the escalation loop always reporting transfer success, the list of
attempted ceilings is a prefix of the list of configured ceilings: the
fixed order is respected and the loop stops early only by breaking. -/
theorem hdrLoop_isTakeOfCeilings (oracle : List Nat → Bool) (pkg : List Nat)
    (dest : FPath) (now : Int) (errs : Nat → Option String) (rname loc : String)
    (herrs : ∀ i, errs i = none) :
    ∀ (cs : List Nat) (i : Nat) (fs : FS),
      (Repo.hdrLoop oracle pkg dest now errs rname loc cs i fs).1 =
        cs.take (Repo.hdrLoop oracle pkg dest now errs rname loc cs i fs).1.length := by
  intro cs
  induction cs with
  | nil => intro i fs; rfl
  | cons c rest ih =>
    intro i fs
    rw [hdrLoop_cons_none oracle pkg dest now errs rname loc c rest i fs (herrs i)]
    by_cases ho : oracle (fetchRange c pkg) = true
    · rw [if_pos ho]; rfl
    · rw [if_neg ho]
      simp only [List.length_cons, List.take_succ_cons]
      exact congrArg (c :: ·) (ih (i + 1) _)

theorem dph_not_local (fs : FS) (rootPath : FPath) (hh lf : Bool) (rname loc : String)
    (oracle : List Nat → Bool) (pkg : List Nat) (errs : Nat → Option String) (now : Int)
    (hnl : (hh && lf) = false)
    (hchk : Repo.is_header_complete fs (rootPath ++ [basename loc]) oracle = .ok false) :
    Repo.download_package_header fs rootPath hh lf rname loc oracle pkg errs now =
      Repo.hdrLoop oracle pkg (rootPath ++ [basename loc]) now errs rname loc
        [100000, 1000000, 5000000, 0] 0 fs := by
  unfold Repo.download_package_header
  rw [hnl]
  simp only [Bool.false_eq_true, if_false]
  rw [hchk]

/-- Claim C2 (amended form is not needed; the claim as stated): with no
structurally complete header already present and all transfers succeeding,
byte-range attempts are issued in the fixed order 100000, 1000000,
5000000, unbounded, re-checking completeness after each attempt and
stopping as soon as it is achieved; in particular a header complete within
the first 100000 bytes causes exactly one attempt, and one complete within
the first 1000000 but not the first 100000 bytes causes exactly two. -/
theorem header_fetch_escalation (fs : FS) (rootPath : FPath) (hh lf : Bool)
    (rname loc : String) (oracle : List Nat → Bool) (pkg : List Nat)
    (errs : Nat → Option String) (now : Int)
    (hnl : (hh && lf) = false)
    (hchk : Repo.is_header_complete fs (rootPath ++ [basename loc]) oracle = .ok false)
    (herrs : ∀ i, errs i = none) :
    ((Repo.download_package_header fs rootPath hh lf rname loc oracle pkg errs now).1 =
      [100000, 1000000, 5000000, 0].take
        (Repo.download_package_header fs rootPath hh lf rname loc oracle pkg errs now).1.length) ∧
    (oracle (fetchRange 100000 pkg) = true →
      (Repo.download_package_header fs rootPath hh lf rname loc oracle pkg errs now).1
        = [100000] ∧
      (Repo.download_package_header fs rootPath hh lf rname loc oracle pkg errs now).2
        = .ok (rootPath ++ [basename loc],
            FS.set fs (rootPath ++ [basename loc]) (.file (fetchRange 100000 pkg) now))) ∧
    (oracle (fetchRange 100000 pkg) = false → oracle (fetchRange 1000000 pkg) = true →
      (Repo.download_package_header fs rootPath hh lf rname loc oracle pkg errs now).1
        = [100000, 1000000] ∧
      (Repo.download_package_header fs rootPath hh lf rname loc oracle pkg errs now).2
        = .ok (rootPath ++ [basename loc],
            FS.set (FS.set fs (rootPath ++ [basename loc])
                (.file (fetchRange 100000 pkg) now))
              (rootPath ++ [basename loc]) (.file (fetchRange 1000000 pkg) now))) := by
  rw [dph_not_local fs rootPath hh lf rname loc oracle pkg errs now hnl hchk]
  refine ⟨hdrLoop_isTakeOfCeilings oracle pkg _ now errs rname loc herrs _ 0 fs, ?_, ?_⟩
  · intro h1
    rw [hdrLoop_cons_none oracle pkg _ now errs rname loc _ _ 0 fs (herrs 0), if_pos h1]
    exact ⟨rfl, rfl⟩
  · intro h1 h2
    rw [hdrLoop_cons_none oracle pkg _ now errs rname loc _ _ 0 fs (herrs 0),
      if_neg (by simp [h1]),
      hdrLoop_cons_none oracle pkg _ now errs rname loc _ _ 1 _ (herrs 1), if_pos h2]
    exact ⟨rfl, rfl⟩

theorem header_fetch_escalation_witness :
    (Repo.download_package_header [] ["root"] true false "myrepo" "pkgs/a.rpm"
        (fun l => decide (150000 ≤ l.length)) (List.replicate 200000 0)
        (fun _ => none) 0).1 = [100000, 1000000] ∧
    (Repo.download_package_header [] ["root"] true false "myrepo" "pkgs/b.rpm"
        (fun l => decide (l.length ≤ 100000)) (List.replicate 200000 0)
        (fun _ => none) 0).1 = [100000] := by
  have hl1 : (fetchRange 100000 (List.replicate 200000 (0 : Nat))).length = 100000 := by
    unfold fetchRange
    rw [if_neg (by decide), List.length_take, List.length_replicate]
    decide
  have hl2 : (fetchRange 1000000 (List.replicate 200000 (0 : Nat))).length = 200000 := by
    unfold fetchRange
    rw [if_neg (by decide), List.length_take, List.length_replicate]
    decide
  constructor
  · exact ((header_fetch_escalation [] ["root"] true false "myrepo" "pkgs/a.rpm"
      (fun l => decide (150000 ≤ l.length)) (List.replicate 200000 0) (fun _ => none) 0
      rfl rfl (fun _ => rfl)).2.2
      (by rw [hl1]; rfl) (by rw [hl2]; rfl)).1
  · exact ((header_fetch_escalation [] ["root"] true false "myrepo" "pkgs/b.rpm"
      (fun l => decide (l.length ≤ 100000)) (List.replicate 200000 0) (fun _ => none) 0
      rfl rfl (fun _ => rfl)).2.1
      (by rw [hl1]; rfl)).1

/-- Claim C10: the header completeness check returns False rather than
raising for a missing file and for a file whose bytes the header parser
rejects; consequently Repo.download_package_header treats a missing prior
download as incomplete and proceeds to the byte-range escalation, whose
first attempt is the 100000-byte range. -/
theorem header_check_totality (fs : FS) (p : FPath) (oracle : List Nat → Bool) :
    (FS.lookup fs p = none → Repo.is_header_complete fs p oracle = .ok false) ∧
    (∀ c m, FS.lookup fs p = some (.file c m) →
      Repo.is_header_complete fs p oracle = .ok (oracle c)) ∧
    (∀ (rootPath : FPath) (hh lf : Bool) (rname loc : String) (pkg : List Nat)
        (errs : Nat → Option String) (now : Int),
      (hh && lf) = false →
      FS.lookup fs (rootPath ++ [basename loc]) = none →
      (Repo.download_package_header fs rootPath hh lf rname loc oracle pkg errs now).1.head?
        = some 100000) := by
  refine ⟨?_, ?_, ?_⟩
  · intro h; simp [Repo.is_header_complete, h]
  · intro c m h; simp [Repo.is_header_complete, h]
  · intro rootPath hh lf rname loc pkg errs now hnl h
    have hchk : Repo.is_header_complete fs (rootPath ++ [basename loc]) oracle
        = .ok false := by
      simp [Repo.is_header_complete, h]
    rw [dph_not_local fs rootPath hh lf rname loc oracle pkg errs now hnl hchk]
    exact hdrLoop_head oracle pkg _ now errs rname loc _ _ 0 fs

theorem header_check_totality_witness :
    Repo.is_header_complete [] ["x"] (fun _ => false) = .ok false ∧
    Repo.is_header_complete [(["y"], FSNode.file [1, 2] 0)] ["y"] (fun _ => false)
      = .ok false ∧
    (Repo.download_package_header [] ["r"] true false "n" "a/b.rpm" (fun _ => false)
        [1] (fun _ => some "boom") 0).1.head? = some 100000 := by
  refine ⟨?_, ?_, ?_⟩
  · exact (header_check_totality [] ["x"] (fun _ => false)).1 rfl
  · exact (header_check_totality [(["y"], FSNode.file [1, 2] 0)] ["y"] (fun _ => false)).2.1
      [1, 2] 0 rfl
  · exact (header_check_totality [] ["r"] (fun _ => false)).2.2 ["r"] true false "n"
      "a/b.rpm" [1] (fun _ => some "boom") 0 rfl rfl

/-- Counterexample to claim C7: Repo.__init__ accepts a call supplying both
a baseurl and a metalink and constructs a descriptor with both set, so no
exactly-one invariant holds for successfully constructed descriptors; the
constructor only rejects the case where neither is supplied. -/
theorem repo_init_both_accepted :
    Repo.init "r" (some "http://u") (some "http://m") false =
      .ok { name := "r", baseurl := some "http://u", metalink := some "http://m",
            skip_if_unavailable := false } := by
  rfl

/-- Claim C7 (amended): every successfully constructed Repo has at least
one of baseurl/metalink set to a truthy (non-empty) value, its fields are
exactly the constructor arguments, fixed at construction, and construction
fails with a RuntimeError when neither a baseurl nor a metalink is
supplied (none or empty both count as unsupplied). -/
theorem repo_init_at_least_one (n : String) (b m : Option String) (sk : Bool) :
    (∀ r, Repo.init n b m sk = .ok r →
      r.name = n ∧ r.baseurl = b ∧ r.metalink = m ∧ r.skip_if_unavailable = sk ∧
        (truthy b || truthy m) = true) ∧
    (truthy b = false → truthy m = false →
      Repo.init n b m sk = .error "Must specify either baseurl or metalink for repo") := by
  constructor
  · intro r hr
    unfold Repo.init at hr
    by_cases hb : truthy b = false ∧ truthy m = false
    · rw [if_pos hb] at hr; cases hr
    · rw [if_neg hb] at hr
      injection hr with hr2
      subst hr2
      refine ⟨rfl, rfl, rfl, rfl, ?_⟩
      cases hbb : truthy b <;> cases hbm : truthy m <;> simp_all
  · intro h1 h2
    unfold Repo.init
    rw [if_pos ⟨h1, h2⟩]

theorem repo_init_at_least_one_witness :
    Repo.init "x" none none true
      = .error "Must specify either baseurl or metalink for repo" :=
  (repo_init_at_least_one "x" none none true).2 rfl rfl

/-- Counterexample to claim C6: a configuration section carrying both a
baseurl and a metalink is accepted without any configuration error, with
the baseurl taking priority, so sections are not required to have exactly
one of baseurl/metalink/mirrorlist; only having none of the three is
rejected. -/
theorem config_section_two_sources_accepted :
    from_yum_config [] [⟨"both", [("baseurl", "http://u"), ("metalink", "http://m")]⟩] =
      .ok [{ name := "both", baseurl := some "http://u", metalink := none,
             skip_if_unavailable := false }] := by
  rfl

/-- Claim C6 (amended): every section other than "main" that is not
excluded by an enabled=false option must have at least one of
baseurl/metalink/mirrorlist, with baseurl preferred over metalink over
mirrorlist when several are present; a mirrorlist is treated identically
to a metalink; and a section having none of the three raises a
configuration error naming the offending section, which aborts
from_yum_config. -/
theorem config_section_requirements (yumvars : List (String × String)) (s : IniSection)
    (hmain : ¬ s.name = "main")
    (hen : ∀ v, getOpt s.options "enabled" = some v → getboolean v = some true)
    (hsk : ∀ v, getOpt s.options "skip_if_unavailable" = some v →
      ∃ b2, getboolean v = some b2) :
    ∃ skip : Bool,
      (∀ b, getOpt s.options "baseurl" = some b →
        processSection yumvars s =
          wrapInit s.name (Repo.init s.name (some (substitute_yumvars b yumvars)) none skip)) ∧
      (∀ m, getOpt s.options "baseurl" = none → getOpt s.options "metalink" = some m →
        processSection yumvars s =
          wrapInit s.name (Repo.init s.name none (some (substitute_yumvars m yumvars)) skip)) ∧
      (∀ ml, getOpt s.options "baseurl" = none → getOpt s.options "metalink" = none →
        getOpt s.options "mirrorlist" = some ml →
        processSection yumvars s =
          wrapInit s.name (Repo.init s.name none (some (substitute_yumvars ml yumvars)) skip)) ∧
      (getOpt s.options "baseurl" = none → getOpt s.options "metalink" = none →
        getOpt s.options "mirrorlist" = none →
        processSection yumvars s = .error (.valueError
          ("Yum config section " ++ s.name ++ " has no baseurl or metalink or mirrorlist"))) ∧
      (∀ rest e2, processSection yumvars s = .error e2 →
        from_yum_config yumvars (s :: rest) = .error e2) := by
  have hEn : (match getOpt s.options "enabled" with
      | none => Except.ok false
      | some v => match getboolean v with
                  | none => Except.error (ConfigError.boolParseError s.name)
                  | some b => Except.ok (!b)) = Except.ok false := by
    cases hev : getOpt s.options "enabled" with
    | none => rfl
    | some v => simp [hen v hev]
  have hSk : ∃ skip : Bool, (match getOpt s.options "skip_if_unavailable" with
      | none => Except.ok false
      | some v => match getboolean v with
                  | none => Except.error (ConfigError.boolParseError s.name)
                  | some b => Except.ok b) = Except.ok skip := by
    cases hsv : getOpt s.options "skip_if_unavailable" with
    | none => exact ⟨false, rfl⟩
    | some v =>
      obtain ⟨b2, hb2⟩ := hsk v hsv
      exact ⟨b2, by simp [hb2]⟩
  obtain ⟨skip, hskipeq⟩ := hSk
  refine ⟨skip, ?_, ?_, ?_, ?_, ?_⟩
  · intro b hb
    unfold processSection
    rw [if_neg hmain]
    simp only [hEn, hskipeq, hb]
  · intro m hb hm
    unfold processSection
    rw [if_neg hmain]
    simp only [hEn, hskipeq, hb, hm]
  · intro ml hb hm hml
    unfold processSection
    rw [if_neg hmain]
    simp only [hEn, hskipeq, hb, hm, hml]
  · intro hb hm hml
    unfold processSection
    rw [if_neg hmain]
    simp only [hEn, hskipeq, hb, hm, hml]
  · intro rest e2 hpe
    simp only [from_yum_config, hpe]

theorem config_section_requirements_witness :
    processSection [] ⟨"broken", []⟩ = .error (.valueError
      ("Yum config section " ++ "broken" ++ " has no baseurl or metalink or mirrorlist")) := by
  obtain ⟨skip, h⟩ := config_section_requirements [] ⟨"broken", []⟩ (by decide)
    (fun v hv => by simp [getOpt] at hv) (fun v hv => by simp [getOpt] at hv)
  exact h.2.2.2.1 rfl rfl rfl

/-! Lemmas toward the characterization of the clean eviction sweep. -/

theorem expiredFile_congr (cutoff : Int) (fs1 fs2 : FS) (q : FPath)
    (h : FS.lookup fs1 q = FS.lookup fs2 q) :
    Cache.expiredFile cutoff fs1 q = Cache.expiredFile cutoff fs2 q := by
  unfold Cache.expiredFile
  rw [h]

theorem expiredFile_true_iff (cutoff : Int) (fs : FS) (q : FPath) :
    Cache.expiredFile cutoff fs q = true ↔
      ∃ c m, FS.lookup fs q = some (.file c m) ∧ m < cutoff := by
  unfold Cache.expiredFile
  cases hl : FS.lookup fs q with
  | none => simp
  | some n =>
    cases n with
    | file c m =>
      simp only [decide_eq_true_eq, Option.some.injEq, FSNode.file.injEq]
      constructor
      · intro h; exact ⟨c, m, ⟨rfl, rfl⟩, h⟩
      · rintro ⟨c1, m1, ⟨hc, hm⟩, hlt⟩; subst hm; exact hlt
    | dir r => simp

theorem expiredFile_of_none (cutoff : Int) (fs : FS) (q : FPath)
    (h : FS.lookup fs q = none) : Cache.expiredFile cutoff fs q = false := by
  unfold Cache.expiredFile
  rw [h]

/-- The inner loop of clean deletes exactly the listed entries that are
expired regular files, and touches nothing else. -/
theorem cleanInner_lookup (cutoff : Int) :
    ∀ (es : List FPath) (fs : FS) (q : FPath),
      FS.lookup (Cache.cleanInner cutoff es fs) q =
        if q ∈ es ∧ Cache.expiredFile cutoff fs q = true then none
        else FS.lookup fs q := by
  intro es
  induction es with
  | nil =>
    intro fs q
    simp [Cache.cleanInner]
  | cons e rest ih =>
    intro fs q
    by_cases hqe : q = e
    · subst hqe
      by_cases hex : Cache.expiredFile cutoff fs q = true
      · obtain ⟨c, m, hl, hm⟩ := (expiredFile_true_iff cutoff fs q).mp hex
        have hstep : Cache.cleanInner cutoff (q :: rest) fs
            = Cache.cleanInner cutoff rest (FS.unlink fs q) := by
          simp only [Cache.cleanInner, hl]
          rw [if_pos hm]
        rw [hstep, ih]
        have hnone : FS.lookup (FS.unlink fs q) q = none := by
          rw [lookup_unlink, if_pos rfl]
        have hexf : Cache.expiredFile cutoff (FS.unlink fs q) q = false :=
          expiredFile_of_none _ _ _ hnone
        rw [if_neg (fun hh => Bool.false_ne_true (hexf ▸ hh.2)), hnone,
          if_pos ⟨List.mem_cons_self .., hex⟩]
      · have hstep : Cache.cleanInner cutoff (q :: rest) fs
            = Cache.cleanInner cutoff rest fs := by
          cases hl : FS.lookup fs q with
          | none => simp [Cache.cleanInner, hl]
          | some n =>
            cases n with
            | file c m =>
              have hm : ¬ m < cutoff := fun hlt =>
                hex ((expiredFile_true_iff cutoff fs q).mpr ⟨c, m, hl, hlt⟩)
              simp [Cache.cleanInner, hl, hm]
            | dir r => simp [Cache.cleanInner, hl]
        rw [hstep, ih]
        rw [if_neg (fun hh => hex hh.2), if_neg (fun hh => hex hh.2)]
    · cases hl : FS.lookup fs e with
      | none =>
        have hstep : Cache.cleanInner cutoff (e :: rest) fs
            = Cache.cleanInner cutoff rest fs := by
          simp [Cache.cleanInner, hl]
        rw [hstep, ih]
        simp only [List.mem_cons, hqe, false_or]
      | some n =>
        cases n with
        | dir r =>
          have hstep : Cache.cleanInner cutoff (e :: rest) fs
              = Cache.cleanInner cutoff rest fs := by
            simp [Cache.cleanInner, hl]
          rw [hstep, ih]
          simp only [List.mem_cons, hqe, false_or]
        | file c m =>
          by_cases hm : m < cutoff
          · have hstep : Cache.cleanInner cutoff (e :: rest) fs
                = Cache.cleanInner cutoff rest (FS.unlink fs e) := by
              simp [Cache.cleanInner, hl, hm]
            rw [hstep, ih]
            have hlq : FS.lookup (FS.unlink fs e) q = FS.lookup fs q := by
              rw [lookup_unlink, if_neg hqe]
            simp only [hlq, expiredFile_congr cutoff (FS.unlink fs e) fs q hlq,
              List.mem_cons, hqe, false_or]
          · have hstep : Cache.cleanInner cutoff (e :: rest) fs
                = Cache.cleanInner cutoff rest fs := by
              simp [Cache.cleanInner, hl, hm]
            rw [hstep, ih]
            simp only [List.mem_cons, hqe, false_or]

/-- A path one level below p decomposes as p with one extra component. -/
theorem exists_concat_of_level (d p : FPath) (hlen : d.length = p.length + 1)
    (htake : d.take p.length = p) : ∃ x, d = p ++ [x] := by
  have hsplit : d.take p.length ++ d.drop p.length = d := List.take_append_drop ..
  have hdrop : (d.drop p.length).length = 1 := by
    rw [List.length_drop, hlen]
    omega
  obtain ⟨x, hx⟩ := List.length_eq_one.mp hdrop
  exact ⟨x, by rw [← hsplit, htake, hx]⟩

theorem dropLast_level (q : FPath) (hq : q ≠ []) :
    q.dropLast.length + 1 = q.length ∧ q.take q.dropLast.length = q.dropLast := by
  have h1 : 0 < q.length := List.length_pos.mpr hq
  have h2 : q.dropLast.length = q.length - 1 := List.length_dropLast q
  constructor
  · omega
  · rw [h2, List.dropLast_eq_take]

/-- The outer loop of clean over level-one subdirectories, all readable,
deletes exactly the expired regular files lying inside listed
subdirectories and preserves every other binding. -/
theorem cleanOuter_spec (cutoff : Int) (base : FPath) :
    ∀ (subs : List FPath) (fs : FS),
      (∀ sub ∈ subs, sub.length = base.length + 1) →
      (∀ sub ∈ subs, ∀ r, FS.lookup fs sub = some (.dir r) → r = true) →
      ∃ fs2, Cache.cleanOuter cutoff subs fs = .ok fs2 ∧
        ∀ q, ((q.dropLast ∈ subs ∧ FS.lookup fs q.dropLast = some (.dir true) ∧
                Cache.expiredFile cutoff fs q = true) → FS.lookup fs2 q = none) ∧
             (¬ (q.dropLast ∈ subs ∧ FS.lookup fs q.dropLast = some (.dir true) ∧
                Cache.expiredFile cutoff fs q = true) →
               FS.lookup fs2 q = FS.lookup fs q) := by
  intro subs
  induction subs with
  | nil =>
    intro fs _ _
    exact ⟨fs, rfl, fun q =>
      ⟨fun hh => absurd hh.1 (List.not_mem_nil _), fun _ => rfl⟩⟩
  | cons sub rest ih =>
    intro fs hlen hread
    have hlenr : ∀ s ∈ rest, s.length = base.length + 1 :=
      fun s hs => hlen s (List.mem_cons_of_mem _ hs)
    have hsublen : sub.length = base.length + 1 := hlen sub (List.mem_cons_self ..)
    have hsub0 : sub ≠ [] := by
      intro hs; rw [hs] at hsublen; simp at hsublen
    cases hl : FS.lookup fs sub with
    | none =>
      have hstep : Cache.cleanOuter cutoff (sub :: rest) fs
          = Cache.cleanOuter cutoff rest fs := by
        simp [Cache.cleanOuter, hl]
      obtain ⟨fs2, heq, hchar⟩ := ih fs hlenr
        (fun s hs => hread s (List.mem_cons_of_mem _ hs))
      refine ⟨fs2, by rw [hstep]; exact heq, fun q => ⟨?_, ?_⟩⟩
      · rintro ⟨hmem, hdir, hexp⟩
        rcases List.mem_cons.mp hmem with hh | hh
        · rw [hh, hl] at hdir; exact Option.noConfusion hdir
        · exact (hchar q).1 ⟨hh, hdir, hexp⟩
      · intro hne
        exact (hchar q).2 (fun hh =>
          hne ⟨List.mem_cons_of_mem _ hh.1, hh.2.1, hh.2.2⟩)
    | some n =>
      cases n with
      | file c m =>
        have hstep : Cache.cleanOuter cutoff (sub :: rest) fs
            = Cache.cleanOuter cutoff rest fs := by
          simp [Cache.cleanOuter, hl]
        obtain ⟨fs2, heq, hchar⟩ := ih fs hlenr
          (fun s hs => hread s (List.mem_cons_of_mem _ hs))
        refine ⟨fs2, by rw [hstep]; exact heq, fun q => ⟨?_, ?_⟩⟩
        · rintro ⟨hmem, hdir, hexp⟩
          rcases List.mem_cons.mp hmem with hh | hh
          · rw [hh, hl] at hdir
            exact FSNode.noConfusion (Option.some.inj hdir)
          · exact (hchar q).1 ⟨hh, hdir, hexp⟩
        · intro hne
          exact (hchar q).2 (fun hh =>
            hne ⟨List.mem_cons_of_mem _ hh.1, hh.2.1, hh.2.2⟩)
      | dir r =>
        have hr : r = true := hread sub (List.mem_cons_self ..) r hl
        subst hr
        have hstep : Cache.cleanOuter cutoff (sub :: rest) fs
            = Cache.cleanOuter cutoff rest
              (Cache.cleanInner cutoff (FS.childKeys fs sub) fs) := by
          simp [Cache.cleanOuter, hl]
        have hIlook : ∀ x, FS.lookup (Cache.cleanInner cutoff (FS.childKeys fs sub) fs) x
            = if x ∈ FS.childKeys fs sub ∧ Cache.expiredFile cutoff fs x = true then none
              else FS.lookup fs x := fun x => cleanInner_lookup cutoff _ fs x
        have hlevel1 : ∀ d : FPath, d.length = base.length + 1 →
            FS.lookup (Cache.cleanInner cutoff (FS.childKeys fs sub) fs) d
              = FS.lookup fs d := by
          intro d hd
          rw [hIlook d, if_neg]
          rintro ⟨hmemc, _⟩
          obtain ⟨_, hlen2, _⟩ := (mem_childKeys_iff fs sub d).mp hmemc
          omega
        obtain ⟨fs2, heq, hchar⟩ := ih (Cache.cleanInner cutoff (FS.childKeys fs sub) fs)
          hlenr
          (fun s hs r2 hl2 => by
            rw [hlevel1 s (hlenr s hs)] at hl2
            exact hread s (List.mem_cons_of_mem _ hs) r2 hl2)
        refine ⟨fs2, by rw [hstep]; exact heq, fun q => ⟨?_, ?_⟩⟩
        · rintro ⟨hmem, hdir, hexp⟩
          by_cases hdel : q ∈ FS.childKeys fs sub ∧ Cache.expiredFile cutoff fs q = true
          · have hqnone : FS.lookup (Cache.cleanInner cutoff (FS.childKeys fs sub) fs) q
                = none := by rw [hIlook q, if_pos hdel]
            have hexf : Cache.expiredFile cutoff
                (Cache.cleanInner cutoff (FS.childKeys fs sub) fs) q = false :=
              expiredFile_of_none _ _ _ hqnone
            rw [(hchar q).2 (fun hh => Bool.false_ne_true (hexf ▸ hh.2.2))]
            exact hqnone
          · have hpres : FS.lookup (Cache.cleanInner cutoff (FS.childKeys fs sub) fs) q
                = FS.lookup fs q := by rw [hIlook q, if_neg hdel]
            have hexI : Cache.expiredFile cutoff
                (Cache.cleanInner cutoff (FS.childKeys fs sub) fs) q
                = Cache.expiredFile cutoff fs q :=
              expiredFile_congr _ _ _ _ hpres
            rcases List.mem_cons.mp hmem with hh | hh
            · exfalso
              apply hdel
              refine ⟨?_, hexp⟩
              obtain ⟨c2, m2, hlq, hmq⟩ := (expiredFile_true_iff cutoff fs q).mp hexp
              have hq0 : q ≠ [] := by
                intro hq
                apply hsub0
                rw [← hh, hq]
                rfl
              obtain ⟨hlevel, htake⟩ := dropLast_level q hq0
              have hdll : q.dropLast.length = sub.length := by rw [hh]
              rw [hdll, hh] at htake
              exact (mem_childKeys_iff fs sub q).mpr ⟨⟨_, hlq⟩, by omega, htake⟩
            · refine (hchar q).1 ⟨hh, ?_, ?_⟩
              · rw [hlevel1 _ (hlenr _ hh)]; exact hdir
              · rw [hexI]; exact hexp
        · intro hne
          by_cases hdel : q ∈ FS.childKeys fs sub ∧ Cache.expiredFile cutoff fs q = true
          · exfalso
            apply hne
            obtain ⟨hmemc, hexp⟩ := hdel
            obtain ⟨_, hlen2, htake2⟩ := (mem_childKeys_iff fs sub q).mp hmemc
            have hq0 : q ≠ [] := by
              intro hq
              rw [hq] at hlen2
              simp at hlen2
            obtain ⟨hlevel, htake⟩ := dropLast_level q hq0
            have hdropq : q.dropLast = sub := by
              have hdll : q.dropLast.length = sub.length := by omega
              rw [← htake, hdll]
              exact htake2
            refine ⟨?_, ?_, hexp⟩
            · rw [hdropq]; exact List.mem_cons_self ..
            · rw [hdropq]; exact hl
          · have hpres : FS.lookup (Cache.cleanInner cutoff (FS.childKeys fs sub) fs) q
                = FS.lookup fs q := by rw [hIlook q, if_neg hdel]
            have hexI : Cache.expiredFile cutoff
                (Cache.cleanInner cutoff (FS.childKeys fs sub) fs) q
                = Cache.expiredFile cutoff fs q :=
              expiredFile_congr _ _ _ _ hpres
            have hcnd : ¬ (q.dropLast ∈ rest ∧
                FS.lookup (Cache.cleanInner cutoff (FS.childKeys fs sub) fs) q.dropLast
                  = some (.dir true) ∧
                Cache.expiredFile cutoff
                  (Cache.cleanInner cutoff (FS.childKeys fs sub) fs) q = true) := by
              rintro ⟨hmem2, hdir2, hexp2⟩
              apply hne
              refine ⟨List.mem_cons_of_mem _ hmem2, ?_, ?_⟩
              · rw [← hlevel1 _ (hlenr _ hmem2)]; exact hdir2
              · rw [← hexI]; exact hexp2
            rw [(hchar q).2 hcnd]
            exact hpres

/-- The specification predicate for deletion coincides with the loop-level
condition used in the characterization of the outer sweep. -/
theorem expiredCacheEntry_iff (fs : FS) (base : FPath) (cutoff : Int) (q : FPath) :
    Cache.expiredCacheEntry fs base cutoff q ↔
      (q.dropLast ∈ FS.childKeys fs base ∧
       FS.lookup fs q.dropLast = some (.dir true) ∧
       Cache.expiredFile cutoff fs q = true) := by
  constructor
  · rintro ⟨⟨s, e2, hq⟩, hdir, c, m, hlq, hm⟩
    have hdrop : q.dropLast = base ++ [s] := by
      rw [hq, show base ++ [s, e2] = (base ++ [s]) ++ [e2] by simp]
      exact List.dropLast_concat
    refine ⟨?_, hdir, (expiredFile_true_iff cutoff fs q).mpr ⟨c, m, hlq, hm⟩⟩
    apply (mem_childKeys_iff fs base q.dropLast).mpr
    refine ⟨⟨_, hdir⟩, ?_, ?_⟩
    · rw [hdrop]; simp
    · rw [hdrop]
      exact List.take_left base [s]
  · rintro ⟨hmem, hdir, hexp⟩
    obtain ⟨⟨n0, hln⟩, hlen2, htake2⟩ := (mem_childKeys_iff fs base q.dropLast).mp hmem
    obtain ⟨s, hs⟩ := exists_concat_of_level q.dropLast base hlen2 htake2
    obtain ⟨c, m, hlq, hm⟩ := (expiredFile_true_iff cutoff fs q).mp hexp
    have hq0 : q ≠ [] := by
      intro hq
      rw [hq] at hs
      have := congrArg List.length hs
      simp at this
    have hqeq : base ++ [s, q.getLast hq0] = q := by
      rw [show base ++ [s, q.getLast hq0] = (base ++ [s]) ++ [q.getLast hq0] by simp, ← hs]
      exact List.dropLast_concat_getLast hq0
    exact ⟨⟨s, q.getLast hq0, hqeq.symm⟩, hdir, c, m, hlq, hm⟩

/-- Claim C3 (amended): Cache.clean computes a cutoff of now minus the
configurable expiry window (default 604800 seconds, overridable through an
environment variable) and, provided the base directory and every scanned
subdirectory are readable, deletes exactly those regular cache files two
levels down whose mtime is strictly older than the cutoff, leaving every
other binding untouched, regardless of iteration order; non-file entries
are skipped silently; an unreadable subdirectory however is not skipped
silently: listing it raises a permission error that propagates. -/
theorem clean_eviction (fs : FS) (base : FPath) (now : Int) (env : Option Int)
    (hbase : FS.lookup fs base = some (.dir true))
    (hread : ∀ s r, FS.lookup fs (base ++ [s]) = some (.dir r) → r = true) :
    Cache.expirySeconds none = 604800 ∧
    ∃ fs2, Cache.clean fs base now env = .ok fs2 ∧
      ∀ q, (Cache.expiredCacheEntry fs base (now - Cache.expirySeconds env) q →
              FS.lookup fs2 q = none) ∧
           (¬ Cache.expiredCacheEntry fs base (now - Cache.expirySeconds env) q →
              FS.lookup fs2 q = FS.lookup fs q) := by
  refine ⟨rfl, ?_⟩
  have hsubs : ∀ sub ∈ FS.childKeys fs base, sub.length = base.length + 1 :=
    fun sub hs => ((mem_childKeys_iff fs base sub).mp hs).2.1
  have hread2 : ∀ sub ∈ FS.childKeys fs base, ∀ r,
      FS.lookup fs sub = some (.dir r) → r = true := by
    intro sub hs r hl
    obtain ⟨_, hlen2, htake2⟩ := (mem_childKeys_iff fs base sub).mp hs
    obtain ⟨x, hx⟩ := exists_concat_of_level sub base hlen2 htake2
    rw [hx] at hl
    exact hread x r hl
  obtain ⟨fs2, heq, hchar⟩ := cleanOuter_spec (now - Cache.expirySeconds env) base
    (FS.childKeys fs base) fs hsubs hread2
  refine ⟨fs2, ?_, ?_⟩
  · unfold Cache.clean
    simp only [hbase]
    exact heq
  · intro q
    constructor
    · intro hq
      exact (hchar q).1 ((expiredCacheEntry_iff fs base _ q).mp hq)
    · intro hq
      exact (hchar q).2 (fun hh => hq ((expiredCacheEntry_iff fs base _ q).mpr hh))

/-- Counterexample to claim C3: an unreadable subdirectory is not skipped
silently; listing it raises PermissionError, which Cache.clean propagates
instead of returning normally and leaving the other entries alone. -/
theorem clean_unreadable_dir_raises :
    Cache.clean Cache.cleanUnreadableFS ["c"] 1000000 none = .error .permissionError := by
  rfl

theorem clean_eviction_witness :
    ∃ fs2, Cache.clean Cache.cleanDemoFS ["c"] 1000000 none = .ok fs2 ∧
      FS.lookup fs2 ["c", "a", "old"] = none ∧
      FS.lookup fs2 ["c", "a", "new"] = some (.file [2] 999999) := by
  have hread : ∀ s r, FS.lookup Cache.cleanDemoFS (["c"] ++ [s]) = some (.dir r) → r = true := by
    intro s r h
    by_cases hs : s = "a"
    · subst hs
      have hv : FS.lookup Cache.cleanDemoFS ["c", "a"] = some (FSNode.dir true) := rfl
      rw [show ((["c"] ++ ["a"]) : FPath) = ["c", "a"] from rfl, hv] at h
      injection h with h4
      injection h4 with hr
      exact hr.symm
    · exfalso
      simp [Cache.cleanDemoFS, FS.lookup, hs] at h
      exact hs h.1.symm
  obtain ⟨hdef, fs2, heq, hchar⟩ :=
    clean_eviction Cache.cleanDemoFS ["c"] 1000000 none rfl hread
  refine ⟨fs2, heq, ?_, ?_⟩
  · exact (hchar ["c", "a", "old"]).1
      ⟨⟨"a", "old", rfl⟩, rfl, [1], 0, rfl, by decide⟩
  · have hn : ¬ Cache.expiredCacheEntry Cache.cleanDemoFS ["c"]
        (1000000 - Cache.expirySeconds none) ["c", "a", "new"] := by
      rintro ⟨_, _, c, m, hlm, hmlt⟩
      have hv : FS.lookup Cache.cleanDemoFS ["c", "a", "new"]
          = some (FSNode.file [2] 999999) := rfl
      rw [hv] at hlm
      injection hlm with h4
      injection h4 with hc hm
      rw [← hm] at hmlt
      exact absurd hmlt (by decide)
    rw [(hchar ["c", "a", "new"]).2 hn]
    rfl

end Rpmdeplint
